import Mathlib

/-!
# Verification of the actix simple-http-server directory-index engine

Shallow embedding of `src/actix-shs-cli/src/handlers.rs` (and the helper
`system_time_to_date_time` duplicated in `src/actix-shs-cli/src/main.rs`).

Strings that flow through the percent codec are modelled at the byte level:
a Rust `String`/`&str` becomes a `List Nat` of its UTF-8 bytes (each `< 256`),
because `url::percent_encoding` operates on UTF-8 bytes.  Query-parameter
values (`sort`, `order`), which the source only compares against ASCII
literals, are modelled as Lean `String`s.
-/

namespace ActixShs

/-! ## PathCodec: `url::percent_encoding` (crate `url` 1.x) as used by the source -/

/-- Byte membership in `SIMPLE_ENCODE_SET` of `url::percent_encoding` 1.x:
every byte that is not a printable ASCII character (`0x20 ..= 0x7E`). -/
def simpleEncodeSet (b : Nat) : Bool :=
  b < 0x20 || 0x7E < b

/-- Byte membership in `DEFAULT_ENCODE_SET`: `SIMPLE_ENCODE_SET` plus
space, `"`, `#`, `<`, `>`, `?`, backtick, and the two curly brackets. -/
def defaultEncodeSet (b : Nat) : Bool :=
  simpleEncodeSet b || b == 0x20 || b == 0x22 || b == 0x23 || b == 0x3C ||
    b == 0x3E || b == 0x3F || b == 0x60 || b == 0x7B || b == 0x7D

/-- Byte membership in `PATH_SEGMENT_ENCODE_SET`: `DEFAULT_ENCODE_SET`
plus `%` (0x25) and `/` (0x2F). -/
def pathSegmentEncodeSet (b : Nat) : Bool :=
  defaultEncodeSet b || b == 0x25 || b == 0x2F

/-- Uppercase hex digit character (as a byte) of a value `< 16`,
as produced by `percent_encode_byte`. -/
def hexDigitU (d : Nat) : Nat :=
  if d < 10 then 48 + d else 55 + d

/-- `utf8_percent_encode` acting on one byte: bytes in the encode set
become `%XY` (three bytes), all others pass through. -/
def percentEncodeByte (b : Nat) : List Nat :=
  if pathSegmentEncodeSet b then [0x25, hexDigitU (b / 16), hexDigitU (b % 16)]
  else [b]

/-- `utf8_percent_encode(s, PATH_SEGMENT_ENCODE_SET).to_string()` on the
UTF-8 bytes of one segment. -/
def percentEncodeSeg (s : List Nat) : List Nat :=
  (s.map percentEncodeByte).flatten

/-- `encode_link_path(path, with_root)` from `handlers.rs` lines 35-44:
percent-encode every segment with `PATH_SEGMENT_ENCODE_SET`, join with `/`,
and prefix a `/` when `with_root` is set. -/
def encode_link_path (path : List (List Nat)) (withRoot : Bool) : List Nat :=
  let link := List.intercalate [0x2F] (path.map percentEncodeSeg)
  if withRoot then 0x2F :: link else link

/-- Value of a hex digit byte, upper or lower case, as accepted by
`percent_decode`. -/
def hexVal (c : Nat) : Option Nat :=
  if 48 ≤ c ∧ c ≤ 57 then some (c - 48)
  else if 65 ≤ c ∧ c ≤ 70 then some (c - 55)
  else if 97 ≤ c ∧ c ≤ 102 then some (c - 87)
  else none

/-- `percent_decode` on a byte sequence: `%` followed by two hex digits
yields the denoted byte; a `%` not followed by two hex digits is passed
through literally (decoding continues at the byte right after the `%`). -/
def percentDecode : List Nat → List Nat
  | [] => []
  | 0x25 :: h :: l :: rest2 =>
    match hexVal h, hexVal l with
    | some hv, some lv => (hv * 16 + lv) :: percentDecode rest2
    | _, _ => 0x25 :: percentDecode (h :: l :: rest2)
  | b :: rest => b :: percentDecode rest

/-- Is a continuation byte (`0x80 ..= 0xBF`). -/
def utf8Cont (b : Nat) : Bool :=
  0x80 ≤ b && b ≤ 0xBF

/-- RFC 3629 UTF-8 validity of a byte sequence, as checked by Rust's
`str::from_utf8` (which `Cow::decode_utf8` calls). -/
def validUtf8 : List Nat → Bool
  | [] => true
  | b :: rest =>
    if b ≤ 0x7F then validUtf8 rest
    else if 0xC2 ≤ b && b ≤ 0xDF then
      match rest with
      | c1 :: rest2 => utf8Cont c1 && validUtf8 rest2
      | [] => false
    else if b == 0xE0 then
      match rest with
      | c1 :: c2 :: rest2 =>
        (0xA0 ≤ c1 && c1 ≤ 0xBF) && utf8Cont c2 && validUtf8 rest2
      | _ => false
    else if (0xE1 ≤ b && b ≤ 0xEC) || b == 0xEE || b == 0xEF then
      match rest with
      | c1 :: c2 :: rest2 => utf8Cont c1 && utf8Cont c2 && validUtf8 rest2
      | _ => false
    else if b == 0xED then
      match rest with
      | c1 :: c2 :: rest2 =>
        (0x80 ≤ c1 && c1 ≤ 0x9F) && utf8Cont c2 && validUtf8 rest2
      | _ => false
    else if b == 0xF0 then
      match rest with
      | c1 :: c2 :: c3 :: rest2 =>
        (0x90 ≤ c1 && c1 ≤ 0xBF) && utf8Cont c2 && utf8Cont c3 && validUtf8 rest2
      | _ => false
    else if 0xF1 ≤ b && b ≤ 0xF3 then
      match rest with
      | c1 :: c2 :: c3 :: rest2 =>
        utf8Cont c1 && utf8Cont c2 && utf8Cont c3 && validUtf8 rest2
      | _ => false
    else if b == 0xF4 then
      match rest with
      | c1 :: c2 :: c3 :: rest2 =>
        (0x80 ≤ c1 && c1 ≤ 0x8F) && utf8Cont c2 && utf8Cont c3 && validUtf8 rest2
      | _ => false
    else false

/-- `percent_decode(s.as_bytes()).decode_utf8()` on one raw path segment:
the decoded bytes when they form valid UTF-8, `none` (the `Err` case the
handler `unwrap`s) otherwise. -/
def decodeSegment (s : List Nat) : Option (List Nat) :=
  let d := percentDecode s
  if validUtf8 d then some d else none

/-- Decode every segment of a list, aborting at the first failure (the
`map` + `collect` of the source, whose `.unwrap()` panics at the first bad
segment). -/
def decodeAll : List (List Nat) → Option (List (List Nat))
  | [] => some []
  | s :: rest =>
    match decodeSegment s, decodeAll rest with
    | some d, some ds => some (d :: ds)
    | _, _ => none

/-- The path-decoding step of `MethodGetHandler::handle` (lines 147-156):
split the raw request path on `/`, drop empty pieces, percent-decode each
remaining piece as UTF-8.  `none` models the `.unwrap()` panic on a piece
that is not valid percent-encoded UTF-8. -/
def decodePathSegments (raw : List Nat) : Option (List (List Nat)) :=
  decodeAll ((raw.splitOn 0x2F).filter (fun s => !s.isEmpty))

/-! ## Timestamps: `system_time_to_date_time` (handlers.rs 19-33, main.rs 22-36)

A `SystemTime` is a signed offset from `UNIX_EPOCH`; we model it as the
offset in nanoseconds (`t : Int`).  `duration_since(UNIX_EPOCH)` returns
`Ok(dur)` with `dur = t` when `0 ≤ t` and `Err(e)` with `e.duration() = -t`
otherwise; `as_secs`/`subsec_nanos` split a duration into whole seconds and
the remaining nanoseconds. -/

/-- The `(sec, nsec)` pair handed to `Local.timestamp` by
`system_time_to_date_time` for a modification time `t` nanoseconds from the
Unix epoch. -/
def system_time_to_date_time (t : Int) : Int × Int :=
  if 0 ≤ t then
    (t / 1000000000, t % 1000000000)
  else
    let dur : Int := -t
    let sec : Int := dur / 1000000000
    let nsec : Int := dur % 1000000000
    if nsec = 0 then (-sec, 0) else (-sec - 1, 1000000000 - nsec)

/-! ## Entries, the sort comparator, and the sort (handlers.rs 61-111, 177-233) -/

/-- The kind a `std::fs::Metadata` reports: `is_dir`, `is_file`, or neither
(`DirEntry::metadata` does not follow symlinks, so a symlink is neither). -/
inductive FileType
  | directory
  | file
  | other
deriving DecidableEq, Repr

/-- One scanned child: name (UTF-8 bytes) plus the metadata fields the
handler reads (`is_dir`/`is_file`, `len()`, `modified()`). -/
structure Entry where
  filename : List Nat
  ftype : FileType
  len : Nat
  modified : Int
deriving DecidableEq, Repr

/-- `metadata.is_dir()`. -/
def Entry.is_dir (e : Entry) : Bool := e.ftype == FileType.directory

/-- `metadata.is_file()`. -/
def Entry.is_file (e : Entry) : Bool := e.ftype == FileType.file

/-- Lexicographic byte comparison: the `Ord` of Rust `String` (which
compares UTF-8 byte sequences). -/
def cmpBytes : List Nat → List Nat → Ordering
  | [], [] => .eq
  | [], _ :: _ => .lt
  | _ :: _, [] => .gt
  | a :: ta, b :: tb =>
    match compare a b with
    | .eq => cmpBytes ta tb
    | o => o

/-- The comparator closure passed to `entries.sort_by` (handlers.rs
189-213), parameterised by the `sort` query value; the Rust `match` on the
`&str` value is a chain of literal equality tests. -/
def entryCmp (sort_field : String) (a b : Entry) : Ordering :=
  if sort_field = "name" then cmpBytes a.filename b.filename
  else if sort_field = "modified" then compare a.modified b.modified
  else if sort_field = "size" then
    if (a.is_dir == b.is_dir) || (a.is_file == b.is_file) then
      compare a.len b.len
    else if a.is_dir then Ordering.lt
    else Ordering.gt
  else cmpBytes a.filename b.filename

/-- Insert `x` into a sorted list, before the first element `y` with
`c x y ≠ gt`; together with `sortByCmp` this is a stable sort, the
behaviour `slice::sort_by` guarantees for its comparator. -/
def orderedInsertBy (c : Entry → Entry → Ordering) (x : Entry) : List Entry → List Entry
  | [] => [x]
  | y :: ys =>
    if c x y = Ordering.gt then y :: orderedInsertBy c x ys
    else x :: y :: ys

/-- Stable insertion sort by a comparator: the embedding of
`entries.sort_by(|a, b| ...)` (a stable sort). -/
def sortByCmp (c : Entry → Entry → Ordering) : List Entry → List Entry
  | [] => []
  | x :: xs => orderedInsertBy c x (sortByCmp c xs)

/-- Lines 189-216: sort ascending with the comparator for `sort_field`,
then reverse the final sequence when `order == "desc"`. -/
def sortEntries (l : List Entry) (sort_field order : String) : List Entry :=
  let sorted := sortByCmp (entryCmp sort_field) l
  if order = "desc" then sorted.reverse else sorted

/-! ## Directory scan (handlers.rs 177-184) -/

/-- The metadata record of one child as the filesystem reports it. -/
structure Metadata where
  ftype : FileType
  len : Nat
  modified : Int
deriving DecidableEq, Repr

/-- The scan loop: for each child of `read_dir`, its name and the result of
`entry.metadata()` (an `io::Error`, modelled by its error value, when the
metadata read fails).  The source applies `?` to every `entry.metadata()`
call, so the first failing child aborts the whole loop with its error. -/
def scanDir : List (List Nat × Except Nat Metadata) → Except Nat (List Entry)
  | [] => Except.ok []
  | (name, mdr) :: rest =>
    match mdr with
    | Except.error e => Except.error e
    | Except.ok md =>
      match scanDir rest with
      | Except.error e => Except.error e
      | Except.ok tail => Except.ok (⟨name, md.ftype, md.len, md.modified⟩ :: tail)

/-! ## Breadcrumb (handlers.rs 161-175) -/

/-- `SimpleLink` from handlers.rs. -/
structure SimpleLink where
  link : List Nat
  label : List Nat
deriving DecidableEq, Repr

/-- The breadcrumb `while` loop, processing the mutable `parts` vector from
its last element towards its first.  The argument is `parts.reverse` (so the
head is the element `pop` removes next) and the result lists the pushed
items in push order: each iteration pushes
`SimpleLink (link := encode_link_path(parts, true), label := parts.pop())`,
where `parts` still contains the popped element when the link is encoded. -/
def crumbLoop : List (List Nat) → List SimpleLink
  | [] => []
  | s :: rest =>
    ⟨encode_link_path ((s :: rest).reverse) true, s⟩ :: crumbLoop rest

/-- Lines 161-175: for a non-empty segment list, first push
`SimpleLink (link := "", label := last segment)`, then run the loop on the
remaining segments, and finally reverse the vector. -/
def breadcrumb (segs : List (List Nat)) : List SimpleLink :=
  match segs with
  | [] => []
  | _ :: _ =>
    (⟨[], segs.getLastD []⟩ :: crumbLoop segs.dropLast.reverse).reverse

/-! ## Sort-toggle links (handlers.rs 186-188, 217-228) -/

/-- `name_order`: `desc` exactly for the literal pair `("name", "asc")`. -/
def name_order (sort_field order : String) : String :=
  if sort_field = "name" ∧ order = "asc" then "desc" else "asc"

/-- `modified_order`: `desc` exactly for the literal pair `("modified", "asc")`. -/
def modified_order (sort_field order : String) : String :=
  if sort_field = "modified" ∧ order = "asc" then "desc" else "asc"

/-- `size_order`: `desc` exactly for the literal pair `("size", "asc")`. -/
def size_order (sort_field order : String) : String :=
  if sort_field = "size" ∧ order = "asc" then "desc" else "asc"

/-- Lines 186-188 and 217-228: read the raw `sort` and `order` query values
(defaulting only *absent* parameters to `"name"` / `"asc"`), and compute the
three toggle directions `(name_order, modified_order, size_order)`. -/
def sortToggleLinks (qsort qorder : Option String) : String × String × String :=
  let sort_field := qsort.getD "name"
  let order := qorder.getD "asc"
  (name_order sort_field order, modified_order sort_field order, size_order sort_field order)

/-! ## Filesystem path resolution (handlers.rs 144-159) -/

/-- Lines 146 and 157-159: `fs_path` starts as `args.root` and each decoded
segment is appended with `PathBuf::push`.  Paths are component lists; every
decoded segment here is a single plain (relative, non-empty) component, for
which `push` simply appends. -/
def resolved_fs_path (root segs : List (List Nat)) : List (List Nat) :=
  root ++ segs

/-- What the operating system resolves a component list to when the scan
opens it: `.` components are skipped and `..` components remove the last
accumulated component, as kernel path walking does on an absolute path whose
prefix (the server root) is already canonical. -/
def osResolve (comps : List (List Nat)) : List (List Nat) :=
  comps.foldl
    (fun acc c =>
      if c = [0x2E] then acc
      else if c = [0x2E, 0x2E] then acc.dropLast
      else acc ++ [c])
    []

/-- An entry whose metadata reports it as a directory or a regular file
(excluding the third possibility, e.g. a symlink). -/
abbrev DirOrFile (e : Entry) : Prop :=
  e.ftype = FileType.directory ∨ e.ftype = FileType.file

/-! ## Concrete data used by counterexamples and witnesses -/

/-- A regular file named `f`, 1 byte. -/
def exampleFile : Entry := ⟨[0x66], FileType.file, 1, 0⟩

/-- A child that is neither a regular file nor a directory (e.g. a
symlink), named `s`, 5 bytes. -/
def exampleSym : Entry := ⟨[0x73], FileType.other, 5, 0⟩

/-- A directory named `d` whose metadata reports 10 bytes. -/
def exampleDir : Entry := ⟨[0x64], FileType.directory, 10, 0⟩

/-- Server root `/srv/www` as a component list. -/
def exampleRoot : List (List Nat) := [[0x73, 0x72, 0x76], [0x77, 0x77, 0x77]]

/-- The decoded segments `[".." , "etc", "passwd"]` of the request path
`/../etc/passwd`. -/
def traversalSegs : List (List Nat) :=
  [[0x2E, 0x2E], [0x65, 0x74, 0x63], [0x70, 0x61, 0x73, 0x73, 0x77, 0x64]]

/-! # Theorems -/

/-- C1: the handler never rejects or strips `..` segments, so for the
request path `/../etc/passwd` against root `/srv/www` the scanned
filesystem path resolves to `/srv/etc/passwd`, which is not under the root:
the path escapes instead of failing with a `PathEscape`/`NotFound` outcome,
contradicting the claim. -/
theorem traversal_segments_escape_root :
    osResolve (resolved_fs_path exampleRoot traversalSegs) =
      [[0x73, 0x72, 0x76], [0x65, 0x74, 0x63], [0x70, 0x61, 0x73, 0x73, 0x77, 0x64]] ∧
    ∀ t, osResolve (resolved_fs_path exampleRoot traversalSegs) ≠ exampleRoot ++ t := by
  refine ⟨by decide, fun t h => ?_⟩
  have h2 : ([[0x73, 0x72, 0x76], [0x65, 0x74, 0x63], [0x70, 0x61, 0x73, 0x73, 0x77, 0x64]] :
      List (List Nat)) = [[0x73, 0x72, 0x76], [0x77, 0x77, 0x77]] ++ t := h
  simp at h2

/-- C2: the raw path `/%ff` contains a segment that is not valid
percent-encoded UTF-8; the decoding step fails (the source then calls
`.unwrap()` on that failure and panics instead of producing a typed
`DecodingError` client error). -/
theorem decode_invalid_utf8_segment_fails :
    decodePathSegments [0x2F, 0x25, 0x66, 0x66] = none := by decide

/-- C3 counterexample: in a scan whose second child has unreadable
metadata, the whole scan aborts with that child's error instead of
returning the two readable entries, so the claim fails at this input. -/
theorem scan_unreadable_child_cex :
    scanDir [([0x61], Except.ok ⟨FileType.file, 3, 0⟩),
             ([0x62], Except.error 5),
             ([0x63], Except.ok ⟨FileType.file, 7, 0⟩)] = Except.error 5 ∧
    scanDir [([0x61], Except.ok ⟨FileType.file, 3, 0⟩),
             ([0x62], Except.error 5),
             ([0x63], Except.ok ⟨FileType.file, 7, 0⟩)] ≠
      Except.ok [⟨[0x61], FileType.file, 3, 0⟩, ⟨[0x63], FileType.file, 7, 0⟩] :=
  ⟨rfl, fun h => Except.noConfusion h⟩

/-- C3 amended: a child whose metadata is unreadable is not skipped; the
first such child aborts the whole scan with its error (children before it
having readable metadata), and no partial listing is produced. -/
theorem scan_first_metadata_error_aborts
    (pre post : List (List Nat × Except Nat Metadata)) (name : List Nat) (e : Nat)
    (hpre : ∀ p ∈ pre, ∃ m, p.2 = Except.ok m) :
    scanDir (pre ++ (name, Except.error e) :: post) = Except.error e := by
  induction pre with
  | nil => rfl
  | cons p ps ih =>
    obtain ⟨m, hm⟩ := hpre p (List.mem_cons_self p ps)
    obtain ⟨n0, mdr⟩ := p
    simp only at hm
    subst hm
    have ih2 := ih (fun q hq => hpre q (List.mem_cons_of_mem _ hq))
    simp only [List.cons_append, scanDir, List.append_eq, ih2]

/-- C3 witness: the amended behaviour at a concrete scan. -/
theorem scan_first_metadata_error_aborts_witness :
    (∀ p ∈ [(([0x61] : List Nat),
        (Except.ok ⟨FileType.file, 3, 0⟩ : Except Nat Metadata))],
      ∃ m, p.2 = Except.ok m) ∧
    scanDir ([([0x61], Except.ok ⟨FileType.file, 3, 0⟩)] ++
      ([0x62], Except.error 5) :: [([0x63], Except.ok ⟨FileType.file, 7, 0⟩)]) =
      Except.error 5 :=
  ⟨by simp, scan_first_metadata_error_aborts _ _ _ _ (by simp)⟩

/-- C5 counterexample: for segments `["a","b","c"]` the breadcrumb links of
the two ancestors are `/a` and `/a/b`, not the claimed `/a/` and `/a/b/`
(no trailing slash is appended), so the claimed breadcrumb value is wrong. -/
theorem breadcrumb_abc_cex :
    breadcrumb [[0x61], [0x62], [0x63]] ≠
      [⟨[0x2F, 0x61, 0x2F], [0x61]⟩,
       ⟨[0x2F, 0x61, 0x2F, 0x62, 0x2F], [0x62]⟩,
       ⟨[], [0x63]⟩] := by decide

/-- C5 amended: for segments `["a","b","c"]` the breadcrumb is exactly
`[(label "a", link "/a"), (label "b", link "/a/b"), (label "c", link "")]`:
items run from outermost ancestor to current directory, each ancestor's
link is the encoding of its prefix of segments with a leading slash and no
trailing slash, and the innermost item's link is empty. -/
theorem breadcrumb_abc :
    breadcrumb [[0x61], [0x62], [0x63]] =
      [⟨[0x2F, 0x61], [0x61]⟩,
       ⟨[0x2F, 0x61, 0x2F, 0x62], [0x62]⟩,
       ⟨[], [0x63]⟩] ∧
    breadcrumb [[0x61], [0x62], [0x63]] =
      [⟨encode_link_path [[0x61]] true, [0x61]⟩,
       ⟨encode_link_path [[0x61], [0x62]] true, [0x62]⟩,
       ⟨[], [0x63]⟩] := by decide

/-- C7: for a modification time `d` seconds plus `n` nanoseconds before the
Unix epoch (`0 < n < 10^9`), `system_time_to_date_time` produces exactly
`(-d - 1, 10^9 - n)`; the pair is sign-correct (seconds times `10^9` plus
nanoseconds recovers the time) and its nanosecond component always lies in
`[0, 10^9)` — nothing is clamped. -/
theorem timestamp_pre_epoch (t : Int) (d n : Nat) (hn : 0 < n)
    (hn9 : n < 1000000000) (ht : t = -((d : Int) * 1000000000 + (n : Int))) :
    system_time_to_date_time t = (-(d : Int) - 1, 1000000000 - (n : Int)) ∧
    (system_time_to_date_time t).1 * 1000000000 + (system_time_to_date_time t).2 = t ∧
    0 ≤ (system_time_to_date_time t).2 ∧
    (system_time_to_date_time t).2 < 1000000000 := by
  have key : system_time_to_date_time t = (-(d : Int) - 1, 1000000000 - (n : Int)) := by
    subst ht
    have h0 : ¬ (0 ≤ -((d : Int) * 1000000000 + (n : Int))) := by omega
    have h1 : ((d : Int) * 1000000000 + (n : Int)) % 1000000000 = (n : Int) := by omega
    have h2 : ((d : Int) * 1000000000 + (n : Int)) / 1000000000 = (d : Int) := by omega
    simp only [system_time_to_date_time, if_neg h0, neg_neg, h1, h2,
      if_neg (show ¬ ((n : Int) = 0) by omega)]
  rw [key]
  refine ⟨rfl, by omega, by omega, by omega⟩

/-- C7 witness: the theorem at `t = -1.5s`, i.e. `d = 1`, `n = 5 * 10^8`. -/
theorem timestamp_pre_epoch_witness :
    system_time_to_date_time (-1500000000) = (-(1 : Int) - 1, 1000000000 - (500000000 : Int)) ∧
    (system_time_to_date_time (-1500000000)).1 * 1000000000 +
      (system_time_to_date_time (-1500000000)).2 = (-1500000000 : Int) ∧
    0 ≤ (system_time_to_date_time (-1500000000)).2 ∧
    (system_time_to_date_time (-1500000000)).2 < 1000000000 :=
  timestamp_pre_epoch (-1500000000) 1 500000000 (by decide) (by decide) (by decide)

/-- C9: sorting by `name` with `order = desc` is implemented by reversing
the ascending result, so it yields exactly the reverse of the `asc`
sequence, for every entry list. -/
theorem sort_name_desc_reverses_asc (l : List Entry) :
    sortEntries l "name" "desc" = (sortEntries l "name" "asc").reverse := by
  simp [sortEntries]

/-- C10: in the `size` comparator the directory-before-file rule fires only
when one side is a directory and the other a regular file; when one side is
a directory and the other is neither a regular file nor a directory, the
`is_file` halves agree (both `false`), so the comparator falls through to
comparing byte sizes. -/
theorem size_cmp_dir_vs_other_by_len (a b : Entry)
    (h : (a.ftype = FileType.directory ∧ b.ftype = FileType.other) ∨
         (a.ftype = FileType.other ∧ b.ftype = FileType.directory)) :
    entryCmp "size" a b = compare a.len b.len := by
  rcases h with ⟨ha, hb⟩ | ⟨ha, hb⟩ <;>
    simp [entryCmp, Entry.is_dir, Entry.is_file, ha, hb]

/-- C10 witness: the comparator at a concrete directory/symlink pair
compares byte sizes. -/
theorem size_cmp_dir_vs_other_by_len_witness :
    ((exampleDir.ftype = FileType.directory ∧ exampleSym.ftype = FileType.other) ∨
      (exampleDir.ftype = FileType.other ∧ exampleSym.ftype = FileType.directory)) ∧
    entryCmp "size" exampleDir exampleSym = compare exampleDir.len exampleSym.len :=
  ⟨Or.inl ⟨rfl, rfl⟩, size_cmp_dir_vs_other_by_len _ _ (Or.inl ⟨rfl, rfl⟩)⟩

/-- C6 counterexample: with `sort=name` and the unrecognized `order=foo`,
the claim demands the pair be normalized to the default `(name, asc)` and
the name toggle therefore be `desc`; the code never normalizes present
values and yields `asc` for every field. -/
theorem toggle_unrecognized_order_cex :
    sortToggleLinks (some "name") (some "foo") = ("asc", "asc", "asc") ∧
    ¬ (sortToggleLinks (some "name") (some "foo")).1 = "desc" := by
  constructor <;> decide

/-- C6 amended: a field's toggle link proposes `desc` exactly when the
`sort` parameter (defaulted to `name` only when absent) is literally that
field's name and the `order` parameter (defaulted to `asc` only when
absent) is literally `asc`; in every other case — including present but
unrecognized `sort` or `order` values, which are not replaced by the
default — the toggle proposes `asc`. -/
theorem toggle_literal_match (qsort qorder : Option String) :
    ((sortToggleLinks qsort qorder).1 = "desc" ↔
      (qsort.getD "name" = "name" ∧ qorder.getD "asc" = "asc")) ∧
    ((sortToggleLinks qsort qorder).2.1 = "desc" ↔
      (qsort.getD "name" = "modified" ∧ qorder.getD "asc" = "asc")) ∧
    ((sortToggleLinks qsort qorder).2.2 = "desc" ↔
      (qsort.getD "name" = "size" ∧ qorder.getD "asc" = "asc")) ∧
    ((sortToggleLinks qsort qorder).1 = "desc" ∨ (sortToggleLinks qsort qorder).1 = "asc") ∧
    ((sortToggleLinks qsort qorder).2.1 = "desc" ∨ (sortToggleLinks qsort qorder).2.1 = "asc") ∧
    ((sortToggleLinks qsort qorder).2.2 = "desc" ∨ (sortToggleLinks qsort qorder).2.2 = "asc") := by
  simp only [sortToggleLinks, name_order, modified_order, size_order]
  refine ⟨?_, ?_, ?_, ?_, ?_, ?_⟩ <;> split_ifs <;> simp_all

/-! ## Lemmas about the size sort restricted to directories and files -/

/-- Characterisation of "not greater" for the `size` comparator on entries
that are directories or regular files. -/
lemma size_cmp_not_gt_iff (a b : Entry) (ha : DirOrFile a) (hb : DirOrFile b) :
    (¬ entryCmp "size" a b = Ordering.gt) ↔
      ((a.ftype = FileType.directory ∧ b.ftype = FileType.file) ∨
       (a.ftype = b.ftype ∧ a.len ≤ b.len)) := by
  rcases ha with ha | ha <;> rcases hb with hb | hb <;>
    simp [entryCmp, Entry.is_dir, Entry.is_file, ha, hb, Nat.compare_eq_gt]

/-- On directories and files the `size` comparator is asymmetric wherever
it returns `gt`. -/
lemma size_cmp_total (a b : Entry) (ha : DirOrFile a) (hb : DirOrFile b)
    (h : entryCmp "size" a b = Ordering.gt) : ¬ entryCmp "size" b a = Ordering.gt := by
  rw [size_cmp_not_gt_iff b a hb ha]
  by_contra hcon
  push_neg at hcon
  have h2 : ¬ entryCmp "size" a b = Ordering.gt := by
    rw [size_cmp_not_gt_iff a b ha hb]
    rcases ha with ha | ha <;> rcases hb with hb | hb <;> simp_all <;> omega
  exact h2 h

/-- On directories and files, "not greater" for the `size` comparator is
transitive. -/
lemma size_cmp_trans (a b d : Entry) (ha : DirOrFile a) (hb : DirOrFile b)
    (hd : DirOrFile d) (h1 : ¬ entryCmp "size" a b = Ordering.gt)
    (h2 : ¬ entryCmp "size" b d = Ordering.gt) :
    ¬ entryCmp "size" a d = Ordering.gt := by
  rw [size_cmp_not_gt_iff a b ha hb] at h1
  rw [size_cmp_not_gt_iff b d hb hd] at h2
  rw [size_cmp_not_gt_iff a d ha hd]
  rcases ha with ha | ha <;> rcases hb with hb | hb <;> rcases hd with hd | hd <;>
    simp_all <;> omega

/-- Membership in an `orderedInsertBy` result. -/
lemma mem_orderedInsertBy (c : Entry → Entry → Ordering) (x z : Entry)
    (l : List Entry) (hz : z ∈ orderedInsertBy c x l) : z = x ∨ z ∈ l := by
  induction l with
  | nil => simpa [orderedInsertBy] using hz
  | cons y ys ih =>
    simp only [orderedInsertBy] at hz
    by_cases hxy : c x y = Ordering.gt
    · rw [if_pos hxy] at hz
      rcases List.mem_cons.mp hz with rfl | hz2
      · exact Or.inr (List.mem_cons_self _ _)
      · rcases ih hz2 with h3 | h3
        · exact Or.inl h3
        · exact Or.inr (List.mem_cons_of_mem _ h3)
    · rw [if_neg hxy] at hz
      rcases List.mem_cons.mp hz with rfl | hz2
      · exact Or.inl rfl
      · exact Or.inr hz2

/-- Membership in a `sortByCmp` result. -/
lemma mem_sortByCmp (c : Entry → Entry → Ordering) (z : Entry) (l : List Entry)
    (hz : z ∈ sortByCmp c l) : z ∈ l := by
  induction l with
  | nil => simp [sortByCmp] at hz
  | cons x xs ih =>
    simp only [sortByCmp] at hz
    rcases mem_orderedInsertBy _ _ _ _ hz with rfl | h2
    · exact List.mem_cons_self _ _
    · exact List.mem_cons_of_mem _ (ih h2)

/-- Inserting into a list sorted by the `size` comparator keeps it sorted,
when every element involved is a directory or a regular file. -/
lemma pairwise_insert_size (x : Entry) (l : List Entry) (hx : DirOrFile x)
    (hl : ∀ e ∈ l, DirOrFile e)
    (hp : l.Pairwise (fun a b => ¬ entryCmp "size" a b = Ordering.gt)) :
    (orderedInsertBy (entryCmp "size") x l).Pairwise
      (fun a b => ¬ entryCmp "size" a b = Ordering.gt) := by
  induction l with
  | nil => simp [orderedInsertBy]
  | cons y ys ih =>
    have hy : DirOrFile y := hl y (List.mem_cons_self y ys)
    have hys : ∀ e ∈ ys, DirOrFile e := fun e he => hl e (List.mem_cons_of_mem _ he)
    rw [List.pairwise_cons] at hp
    obtain ⟨hy_ys, hp_ys⟩ := hp
    simp only [orderedInsertBy]
    by_cases hxy : entryCmp "size" x y = Ordering.gt
    · rw [if_pos hxy]
      refine List.pairwise_cons.mpr ⟨?_, ih hys hp_ys⟩
      intro z hz
      rcases mem_orderedInsertBy _ _ _ _ hz with rfl | hz'
      · exact size_cmp_total _ _ hx hy hxy
      · exact hy_ys z hz'
    · rw [if_neg hxy]
      refine List.pairwise_cons.mpr ⟨?_, List.pairwise_cons.mpr ⟨hy_ys, hp_ys⟩⟩
      intro z hz
      rcases List.mem_cons.mp hz with rfl | hz'
      · exact hxy
      · exact size_cmp_trans x y z hx hy (hys z hz') hxy (hy_ys z hz')

/-- The full `size` sort of a directory/file-only list is sorted for the
comparator. -/
lemma pairwise_sort_size (l : List Entry) (hl : ∀ e ∈ l, DirOrFile e) :
    (sortByCmp (entryCmp "size") l).Pairwise
      (fun a b => ¬ entryCmp "size" a b = Ordering.gt) := by
  induction l with
  | nil => simp [sortByCmp]
  | cons x xs ih =>
    simp only [sortByCmp]
    exact pairwise_insert_size x (sortByCmp (entryCmp "size") xs)
      (hl x (List.mem_cons_self _ _))
      (fun e he => hl e (List.mem_cons_of_mem _ (mem_sortByCmp _ _ _ he)))
      (ih (fun e he => hl e (List.mem_cons_of_mem _ he)))

/-- C4 counterexample: sorting `[file (1 byte), symlink (5 bytes),
directory (10 bytes)]` by `size` leaves the regular file *before* the
directory (output `[file, symlink, directory]`), because the comparator
compares the directory against the symlink by byte size; the claim's
universally quantified "every directory before every regular file" is
false at this list. -/
theorem size_sort_dir_after_file_cex :
    sortEntries [exampleFile, exampleSym, exampleDir] "size" "asc" =
      [exampleFile, exampleSym, exampleDir] ∧
    ¬ (sortEntries [exampleFile, exampleSym, exampleDir] "size" "asc").Pairwise
        (fun a b => ¬ (a.ftype = FileType.file ∧ b.ftype = FileType.directory)) := by
  constructor <;> decide

/-- C4 amended: for every list of entries *each of which is a directory or
a regular file*, sorting with field `size` (ascending) places every
directory before every regular file regardless of byte sizes, and orders
entries of the same kind by byte size. -/
theorem size_sort_dirs_first (l : List Entry) (hl : ∀ e ∈ l, DirOrFile e) :
    (sortEntries l "size" "asc").Pairwise
      (fun a b => (b.ftype = FileType.directory → a.ftype = FileType.directory) ∧
        (a.ftype = b.ftype → a.len ≤ b.len)) := by
  have hs : sortEntries l "size" "asc" = sortByCmp (entryCmp "size") l := by
    simp [sortEntries]
  rw [hs]
  refine List.Pairwise.imp_of_mem ?_ (pairwise_sort_size l hl)
  intro a b ha hb hr
  have hda := hl a (mem_sortByCmp _ _ _ ha)
  have hdb := hl b (mem_sortByCmp _ _ _ hb)
  rw [size_cmp_not_gt_iff a b hda hdb] at hr
  constructor
  · intro hbdir
    rcases hr with ⟨h1, _⟩ | ⟨h1, _⟩
    · exact h1
    · rw [h1, hbdir]
  · intro heq
    rcases hr with ⟨h1, h2⟩ | ⟨_, h2⟩
    · have : FileType.directory = FileType.file := by rw [← h1, heq, h2]
      cases this
    · exact h2

/-- C4 witness: the amended statement at a concrete directory/file list. -/
theorem size_sort_dirs_first_witness :
    (∀ e ∈ [exampleFile, exampleDir], DirOrFile e) ∧
    (sortEntries [exampleFile, exampleDir] "size" "asc").Pairwise
      (fun a b => (b.ftype = FileType.directory → a.ftype = FileType.directory) ∧
        (a.ftype = b.ftype → a.len ≤ b.len)) :=
  ⟨by decide, size_sort_dirs_first _ (by decide)⟩

/-! ## Lemmas for the percent-codec round trip -/

/-- Decoding a hex digit the encoder produced recovers its value. -/
lemma hexVal_hexDigitU (d : Nat) (hd : d < 16) : hexVal (hexDigitU d) = some d := by
  interval_cases d <;> rfl

/-- The encoder's hex digits are never a slash. -/
lemma hexDigitU_ne_slash (d : Nat) : hexDigitU d ≠ 0x2F := by
  unfold hexDigitU
  split <;> omega

/-- A byte other than `%` decodes literally, whatever follows. -/
lemma percentDecode_cons_ne (b : Nat) (rest : List Nat) (hb : b ≠ 0x25) :
    percentDecode (b :: rest) = b :: percentDecode rest := by
  match rest with
  | [] => simp [percentDecode, hb]
  | [h] => simp [percentDecode, hb]
  | h :: l :: r2 =>
    conv_lhs => rw [percentDecode.eq_def]
    split <;> simp_all

/-- A `%XY` triple the encoder produced decodes back to its byte. -/
lemma percentDecode_enc_triple (b : Nat) (hb : b < 256) (rest : List Nat) :
    percentDecode (0x25 :: hexDigitU (b / 16) :: hexDigitU (b % 16) :: rest) =
      b :: percentDecode rest := by
  have h1 := hexVal_hexDigitU (b / 16) (by omega)
  have h2 := hexVal_hexDigitU (b % 16) (by omega)
  simp only [percentDecode, h1, h2]
  congr 1
  omega

/-- Decoding undoes the one-byte encoder, with any continuation. -/
lemma percentDecode_encodeByte (b : Nat) (hb : b < 256) (rest : List Nat) :
    percentDecode (percentEncodeByte b ++ rest) = b :: percentDecode rest := by
  by_cases hset : pathSegmentEncodeSet b = true
  · simp only [percentEncodeByte, if_pos hset, List.cons_append, List.nil_append]
    exact percentDecode_enc_triple b hb rest
  · simp only [percentEncodeByte, if_neg hset, List.cons_append, List.nil_append]
    refine percentDecode_cons_ne b rest fun h => ?_
    subst h
    exact hset (by decide)

/-- Decoding undoes segment encoding, byte list by byte list. -/
lemma percentDecode_encodeSeg (s : List Nat) (h : ∀ b ∈ s, b < 256) :
    percentDecode (percentEncodeSeg s) = s := by
  induction s with
  | nil => rfl
  | cons b s' ih =>
    simp only [percentEncodeSeg, List.map_cons, List.flatten_cons]
    rw [percentDecode_encodeByte b (h b (List.mem_cons_self _ _)) _]
    rw [show (s'.map percentEncodeByte).flatten = percentEncodeSeg s' from rfl]
    rw [ih (fun c hc => h c (List.mem_cons_of_mem _ hc))]

/-- An encoded segment never contains a slash byte: a slash in the source
is itself percent-encoded. -/
lemma slash_not_mem_encodeSeg (s : List Nat) : 0x2F ∉ percentEncodeSeg s := by
  induction s with
  | nil => simp [percentEncodeSeg]
  | cons b s' ih =>
    simp only [percentEncodeSeg, List.map_cons, List.flatten_cons, List.mem_append]
    rintro (hmem | hmem)
    · by_cases hset : pathSegmentEncodeSet b = true
      · simp only [percentEncodeByte, if_pos hset, List.mem_cons,
          List.not_mem_nil, or_false] at hmem
        rcases hmem with h | h | h
        · exact absurd h (by decide)
        · exact hexDigitU_ne_slash _ h.symm
        · exact hexDigitU_ne_slash _ h.symm
      · simp only [percentEncodeByte, if_neg hset, List.mem_singleton] at hmem
        subst hmem
        exact hset (by decide)
    · exact ih hmem

/-- An encoded segment is empty only when the segment is. -/
lemma encodeSeg_ne_nil (s : List Nat) (h : s ≠ []) : percentEncodeSeg s ≠ [] := by
  cases s with
  | nil => exact absurd rfl h
  | cons b s' =>
    simp only [percentEncodeSeg, List.map_cons, List.flatten_cons]
    by_cases hset : pathSegmentEncodeSet b = true <;>
      simp [percentEncodeByte, hset]

/-- Decoding each encoded segment of a list succeeds and returns the
original segments. -/
lemma mapM_decode_encode (segs : List (List Nat))
    (h2 : ∀ s ∈ segs, ∀ b ∈ s, b < 256)
    (h3 : ∀ s ∈ segs, validUtf8 s = true) :
    decodeAll (segs.map percentEncodeSeg) = some segs := by
  induction segs with
  | nil => rfl
  | cons t ts ih =>
    have hdec : decodeSegment (percentEncodeSeg t) = some t := by
      unfold decodeSegment
      rw [percentDecode_encodeSeg t (h2 t (List.mem_cons_self _ _))]
      simp [h3 t (List.mem_cons_self _ _)]
    simp [decodeAll, hdec,
      ih (fun s hs => h2 s (List.mem_cons_of_mem _ hs))
         (fun s hs => h3 s (List.mem_cons_of_mem _ hs))]

/-- C8 counterexample: the empty segment contains no `/` yet does not
survive the round trip: encoding `[""]` gives the empty string, whose
decoding is `[]`, not `[""]` (the decoder drops empty pieces). -/
theorem roundtrip_empty_segment_cex :
    decodePathSegments (encode_link_path [[]] false) = some [] ∧
    decodePathSegments (encode_link_path [[]] false) ≠ some [[]] ∧
    (0x2F : Nat) ∉ ([] : List Nat) := by
  refine ⟨by decide, by decide, by decide⟩

/-- C8 amended: for every sequence of *nonempty* segments (UTF-8 byte
sequences of Rust strings, so bytes are `< 256` and each segment is valid
UTF-8) none of which contains the byte `/`, decoding the encoding with
neither leading nor trailing slash returns the original sequence. -/
theorem decode_encode_roundtrip (segs : List (List Nat))
    (h1 : ∀ s ∈ segs, s ≠ [])
    (hsl : ∀ s ∈ segs, (0x2F : Nat) ∉ s)
    (h2 : ∀ s ∈ segs, ∀ b ∈ s, b < 256)
    (h3 : ∀ s ∈ segs, validUtf8 s = true) :
    decodePathSegments (encode_link_path segs false) = some segs := by
  cases segs with
  | nil => rfl
  | cons s0 rest =>
    have hsplit : (encode_link_path (s0 :: rest) false).splitOn 0x2F =
        (s0 :: rest).map percentEncodeSeg := by
      have henc : encode_link_path (s0 :: rest) false =
          List.intercalate [0x2F] ((s0 :: rest).map percentEncodeSeg) := rfl
      rw [henc]
      exact List.splitOn_intercalate ((s0 :: rest).map percentEncodeSeg) 0x2F
        (fun l hl => by
          obtain ⟨s, _, rfl⟩ := List.mem_map.mp hl
          exact slash_not_mem_encodeSeg s)
        (by simp)
    unfold decodePathSegments
    rw [hsplit]
    have hfilter : ((s0 :: rest).map percentEncodeSeg).filter (fun s => !s.isEmpty) =
        (s0 :: rest).map percentEncodeSeg := by
      refine List.filter_eq_self.mpr ?_
      intro a ha
      obtain ⟨s, hs, rfl⟩ := List.mem_map.mp ha
      have := encodeSeg_ne_nil s (h1 s hs)
      simpa [List.isEmpty_iff] using this
    rw [hfilter]
    exact mapM_decode_encode (s0 :: rest) h2 h3

/-- C8 witness: the amended round trip at the two segments `a` and `%`. -/
theorem decode_encode_roundtrip_witness :
    (∀ s ∈ [[0x61], [0x25]], s ≠ ([] : List Nat)) ∧
    (∀ s ∈ [[0x61], [0x25]], (0x2F : Nat) ∉ s) ∧
    (∀ s ∈ [[0x61], [0x25]], ∀ b ∈ s, b < 256) ∧
    (∀ s ∈ [[0x61], [0x25]], validUtf8 s = true) ∧
    decodePathSegments (encode_link_path [[0x61], [0x25]] false) = some [[0x61], [0x25]] :=
  ⟨by decide, by decide, by decide, by decide,
    decode_encode_roundtrip _ (by decide) (by decide) (by decide) (by decide)⟩

end ActixShs
